import Mathlib

set_option autoImplicit false

/-!
Verification of the axis-formatting helper library (`tools.py`).

The library has four entry points:

* `pause_commandline(msg)` — console pause unless running under Spyder;
* `set_xaxis_dateformat(ax, xlabel, maxticks, yminor, ticklabels)` —
  adaptive date-axis tick/gridline selection driven by the span in days of
  the axis's current horizontal range;
* `set_dense_minor_yticks(ax)` — on a vertical range of at most two
  decades, widen the minor tick set to mantissas 1.5, 2, …, 9 per decade;
* `set_yaxis_log_minor_labels(ax)` — install `MyLogFormatter` (suppressing
  mantissas 6, 8, 9 and using metric-style multipliers M/k/m) on both the
  major and the minor ticks, then call `set_dense_minor_yticks`.

The embedding is shallow: floating-point quantities are modelled as exact
rationals (`ℚ`), `numpy.floor(numpy.log10 x)` as `floorLog10`,
`numpy.ceil(numpy.log10 x)` as `ceilLog10`, `numpy.around(v, 1)` as
`around1` (rounding half up; on actual binary doubles the two usual tie
rules never differ on these code paths because exact decimal ties are not
representable), and the matplotlib axis object as an explicit `Axis`
record whose fields are exactly the pieces of axis state the library
touches.
-/

/-- Fuel-driven base-10 floor-logarithm on naturals: `natLog10 f n` is
`⌊log10 n⌋` whenever `1 ≤ n ≤ f`.  Structural recursion on the fuel keeps
it kernel-reducible. -/
def natLog10 : ℕ → ℕ → ℕ
  | 0, _ => 0
  | f + 1, n => if n < 10 then 0 else natLog10 f (n / 10) + 1

/-- Fuel-driven base-10 ceiling-logarithm on naturals: `natClog10 f n` is
`⌈log10 n⌉` whenever `n ≤ f`. -/
def natClog10 : ℕ → ℕ → ℕ
  | 0, _ => 0
  | f + 1, n => if n ≤ 1 then 0 else natClog10 f ((n + 9) / 10) + 1

theorem natLog10_spec :
    ∀ f n : ℕ, 1 ≤ n → n ≤ f →
      10 ^ natLog10 f n ≤ n ∧ n < 10 ^ (natLog10 f n + 1) := by
  intro f
  induction f with
  | zero => intro n h1 h2; omega
  | succ f ih =>
    intro n h1 h2
    simp only [natLog10]
    split
    · constructor <;> simp <;> omega
    · rename_i h
      obtain ⟨hle, hlt⟩ := ih (n / 10) (by omega) (by omega)
      rw [pow_succ] at hlt ⊢
      rw [pow_succ, pow_succ]
      constructor
      · calc 10 ^ natLog10 f (n / 10) * 10 ≤ n / 10 * 10 := by omega
          _ ≤ n := by omega
      · omega

theorem natClog10_spec :
    ∀ f n : ℕ, n ≤ f →
      n ≤ 10 ^ natClog10 f n ∧
        (2 ≤ n → ∃ c, natClog10 f n = c + 1 ∧ 10 ^ c < n) := by
  intro f
  induction f with
  | zero =>
    intro n h2
    have hn : n = 0 := by omega
    subst hn
    exact ⟨by simp [natClog10], by omega⟩
  | succ f ih =>
    intro n h2
    simp only [natClog10]
    split
    · rename_i h; constructor
      · simpa using h
      · omega
    · rename_i h
      obtain ⟨hle, hstrict⟩ := ih ((n + 9) / 10) (by omega)
      rw [pow_succ]
      refine ⟨by omega, fun _ => ⟨natClog10 f ((n + 9) / 10), rfl, ?_⟩⟩
      by_cases hm : 2 ≤ (n + 9) / 10
      · obtain ⟨c, hc, hcl⟩ := hstrict hm
        rw [hc, pow_succ]
        omega
      · have hn10 : n ≤ 10 := by omega
        have : natClog10 f ((n + 9) / 10) = 0 := by
          have h1 : (n + 9) / 10 ≤ 1 := by omega
          cases f with
          | zero => rfl
          | succ f => simp only [natClog10]; split <;> omega
        rw [this]
        simpa using by omega

/-- `⌊log10 x⌋` for a positive rational `x`, the shallow embedding of
`numpy.floor(numpy.log10(x))` on the exact value. -/
def floorLog10 (x : ℚ) : ℤ :=
  if 1 ≤ x then (natLog10 ⌊x⌋₊ ⌊x⌋₊ : ℤ) else -(natClog10 ⌈x⁻¹⌉₊ ⌈x⁻¹⌉₊ : ℤ)

/-- `⌈log10 x⌉` for a positive rational `x`, the shallow embedding of
`numpy.ceil(numpy.log10(x))` on the exact value. -/
def ceilLog10 (x : ℚ) : ℤ :=
  if 1 ≤ x then (natClog10 ⌈x⌉₊ ⌈x⌉₊ : ℤ) else -(natLog10 ⌊x⁻¹⌋₊ ⌊x⁻¹⌋₊ : ℤ)

theorem floorLog10_spec (x : ℚ) (hx : 0 < x) :
    (10 : ℚ) ^ floorLog10 x ≤ x ∧ x < 10 ^ (floorLog10 x + 1) := by
  unfold floorLog10
  split
  · rename_i h1
    set n := ⌊x⌋₊ with hn
    have hn1 : 1 ≤ n := Nat.le_floor (by exact_mod_cast h1)
    obtain ⟨hle, hlt⟩ := natLog10_spec n n hn1 le_rfl
    have hfl : (n : ℚ) ≤ x := Nat.floor_le hx.le
    have hfu : x < n + 1 := Nat.lt_floor_add_one x
    constructor
    · rw [show ((natLog10 n n : ℤ)) = ((natLog10 n n : ℕ) : ℤ) from rfl, zpow_natCast]
      calc ((10 : ℚ)) ^ (natLog10 n n) = ((10 ^ natLog10 n n : ℕ) : ℚ) := by
            push_cast; ring
        _ ≤ (n : ℚ) := by exact_mod_cast hle
        _ ≤ x := hfl
    · have : ((n : ℚ) + 1) ≤ ((10 ^ (natLog10 n n + 1) : ℕ) : ℚ) := by
        exact_mod_cast hlt
      calc x < (n : ℚ) + 1 := hfu
        _ ≤ ((10 ^ (natLog10 n n + 1) : ℕ) : ℚ) := this
        _ = (10 : ℚ) ^ ((natLog10 n n : ℤ) + 1) := by
            rw [show ((natLog10 n n : ℤ) + 1) = (((natLog10 n n + 1 : ℕ)) : ℤ) by
              push_cast; ring, zpow_natCast]
            push_cast; ring
  · rename_i h1
    have hx1 : x < 1 := by linarith [not_le.mp h1]
    have hy1 : 1 < x⁻¹ := one_lt_inv_iff₀.mpr ⟨hx, hx1⟩
    set m := ⌈x⁻¹⌉₊ with hm
    have hm2 : 2 ≤ m := by
      have : 1 < m := Nat.lt_ceil.mpr (by exact_mod_cast hy1)
      omega
    obtain ⟨hle, hstrict⟩ := natClog10_spec m m le_rfl
    obtain ⟨c, hc, hcl⟩ := hstrict hm2
    have hinvpos : 0 < x⁻¹ := inv_pos.mpr hx
    constructor
    · -- 10 ^ (-(clog)) ≤ x  from  x⁻¹ ≤ ⌈x⁻¹⌉₊ ≤ 10 ^ clog
      have h1' : x⁻¹ ≤ ((10 ^ natClog10 m m : ℕ) : ℚ) :=
        le_trans (Nat.le_ceil x⁻¹) (by exact_mod_cast hle)
      have hpow : ((10 ^ natClog10 m m : ℕ) : ℚ) = (10 : ℚ) ^ ((natClog10 m m : ℕ) : ℤ) := by
        rw [zpow_natCast]; push_cast; ring
      rw [zpow_neg]
      calc ((10 : ℚ) ^ ((natClog10 m m : ℕ) : ℤ))⁻¹
          ≤ (x⁻¹)⁻¹ := by
            apply inv_anti₀ hinvpos
            rw [← hpow]; exact h1'
        _ = x := inv_inv x
    · -- x < 10 ^ (-(clog) + 1)  from  10 ^ (clog - 1) < ⌈x⁻¹⌉₊ - 1 < x⁻¹
      have hlt' : ((10 ^ c : ℕ) : ℚ) < x⁻¹ := by
        have : (10 ^ c : ℕ) < m := hcl
        have h2 : ((10 ^ c : ℕ) : ℚ) < (m : ℚ) := by exact_mod_cast this
        have h3 : (m : ℚ) - 1 < x⁻¹ := by
          have := Nat.ceil_lt_add_one hinvpos.le
          push_cast at this ⊢
          linarith
        have h4 : ((10 ^ c : ℕ) : ℚ) ≤ (m : ℚ) - 1 := by
          have h6 : (10 ^ c + 1 : ℕ) ≤ m := by omega
          have h5 : ((10 ^ c + 1 : ℕ) : ℚ) ≤ (m : ℚ) := by exact_mod_cast h6
          push_cast at h5 ⊢
          linarith
        linarith
      have hpowc : ((10 ^ c : ℕ) : ℚ) = (10 : ℚ) ^ ((c : ℕ) : ℤ) := by
        rw [zpow_natCast]; push_cast; ring
      have hfinal : x < ((10 : ℚ) ^ ((c : ℕ) : ℤ))⁻¹ := by
        have := inv_strictAnti₀ (by positivity : (0:ℚ) < ((10 ^ c : ℕ) : ℚ)) hlt'
        rw [inv_inv] at this
        calc x = (x⁻¹)⁻¹ := (inv_inv x).symm
          _ < ((10 ^ c : ℕ) : ℚ)⁻¹ := by
              exact inv_strictAnti₀ (by positivity) hlt'
          _ = ((10 : ℚ) ^ ((c : ℕ) : ℤ))⁻¹ := by rw [hpowc]
      rw [hc]
      have : (-(((c : ℕ) + 1 : ℕ) : ℤ) + 1) = -((c : ℕ) : ℤ) := by push_cast; ring
      rw [this, zpow_neg]
      exact hfinal

theorem ceilLog10_spec (x : ℚ) (hx : 0 < x) :
    (10 : ℚ) ^ (ceilLog10 x - 1) < x ∧ x ≤ 10 ^ ceilLog10 x := by
  unfold ceilLog10
  split
  · rename_i h1
    set m := ⌈x⌉₊ with hm
    have hm1 : 1 ≤ m := by
      have : 0 < m := Nat.ceil_pos.mpr hx
      omega
    obtain ⟨hle, hstrict⟩ := natClog10_spec m m le_rfl
    have hub : x ≤ ((10 ^ natClog10 m m : ℕ) : ℚ) :=
      le_trans (Nat.le_ceil x) (by exact_mod_cast hle)
    have hpow : ((10 ^ natClog10 m m : ℕ) : ℚ) = (10 : ℚ) ^ ((natClog10 m m : ℕ) : ℤ) := by
      rw [zpow_natCast]; push_cast; ring
    refine ⟨?_, by rw [← hpow]; exact hub⟩
    by_cases hm2 : 2 ≤ m
    · obtain ⟨c, hc, hcl⟩ := hstrict hm2
      have hlt : ((10 ^ c : ℕ) : ℚ) < x := Nat.lt_ceil.mp (by exact_mod_cast hcl)
      have : (((natClog10 m m : ℕ) : ℤ) - 1) = ((c : ℕ) : ℤ) := by
        rw [hc]; push_cast; ring
      rw [this]
      calc (10 : ℚ) ^ ((c : ℕ) : ℤ) = ((10 ^ c : ℕ) : ℚ) := by
            rw [zpow_natCast]; push_cast; ring
        _ < x := hlt
    · have hm1' : m = 1 := by omega
      have hz : natClog10 m m = 0 := by
        rw [hm1']
        rfl
      rw [hz]
      have : (((0 : ℕ) : ℤ) - 1) = (-1 : ℤ) := by norm_num
      rw [this]
      have : (10 : ℚ) ^ (-1 : ℤ) = 1 / 10 := by norm_num
      rw [this]
      linarith
  · rename_i h1
    have hx1 : x < 1 := by linarith [not_le.mp h1]
    have hy1 : 1 < x⁻¹ := one_lt_inv_iff₀.mpr ⟨hx, hx1⟩
    have hinvpos : 0 < x⁻¹ := inv_pos.mpr hx
    set n := ⌊x⁻¹⌋₊ with hn
    have hn1 : 1 ≤ n := Nat.le_floor (by exact_mod_cast hy1.le)
    obtain ⟨hle, hlt⟩ := natLog10_spec n n hn1 le_rfl
    set k := natLog10 n n with hk
    have hkcast : ((10 ^ k : ℕ) : ℚ) = (10 : ℚ) ^ ((k : ℕ) : ℤ) := by
      rw [zpow_natCast]; push_cast; ring
    have hkcast1 : ((10 ^ (k + 1) : ℕ) : ℚ) = (10 : ℚ) ^ (((k : ℕ) : ℤ) + 1) := by
      rw [show (((k : ℕ) : ℤ) + 1) = (((k + 1 : ℕ)) : ℤ) by push_cast; ring, zpow_natCast]
      push_cast; ring
    constructor
    · -- 10 ^ (-k - 1) < x  from  x⁻¹ < n + 1 ≤ 10 ^ (k + 1)
      have hup : x⁻¹ < ((10 ^ (k + 1) : ℕ) : ℚ) := by
        have h2 : x⁻¹ < (n : ℚ) + 1 := Nat.lt_floor_add_one x⁻¹
        have h3 : ((n : ℚ) + 1) ≤ ((10 ^ (k + 1) : ℕ) : ℚ) := by
          exact_mod_cast Nat.succ_le_of_lt hlt
        linarith
      have : ((10 ^ (k + 1) : ℕ) : ℚ)⁻¹ < x := by
        calc ((10 ^ (k + 1) : ℕ) : ℚ)⁻¹ < (x⁻¹)⁻¹ :=
              inv_strictAnti₀ hinvpos hup
          _ = x := inv_inv x
      have heq : (-((k : ℕ) : ℤ) - 1) = -(((k : ℕ) : ℤ) + 1) := by ring
      rw [heq, zpow_neg, ← hkcast1]
      exact this
    · -- x ≤ 10 ^ (-k)  from  10 ^ k ≤ n ≤ x⁻¹
      have hdn : ((10 ^ k : ℕ) : ℚ) ≤ x⁻¹ := by
        have h2 : ((10 ^ k : ℕ) : ℚ) ≤ (n : ℚ) := by exact_mod_cast hle
        have h3 : (n : ℚ) ≤ x⁻¹ := Nat.floor_le hinvpos.le
        linarith
      rw [zpow_neg, ← hkcast]
      calc x = (x⁻¹)⁻¹ := (inv_inv x).symm
        _ ≤ ((10 ^ k : ℕ) : ℚ)⁻¹ := inv_anti₀ (by positivity) hdn

theorem floorLog10_eq_of (x : ℚ) (e : ℤ) (h1 : (10 : ℚ) ^ e ≤ x)
    (h2 : x < 10 ^ (e + 1)) : floorLog10 x = e := by
  have hx : 0 < x := lt_of_lt_of_le (zpow_pos (by norm_num) e) h1
  obtain ⟨l1, l2⟩ := floorLog10_spec x hx
  by_contra hne
  rcases lt_or_gt_of_ne hne with h | h
  · have : (10 : ℚ) ^ (floorLog10 x + 1) ≤ 10 ^ e :=
      zpow_le_zpow_right₀ (by norm_num) (by omega)
    linarith
  · have : (10 : ℚ) ^ (e + 1) ≤ 10 ^ floorLog10 x :=
      zpow_le_zpow_right₀ (by norm_num) (by omega)
    linarith

theorem ceilLog10_eq_of (x : ℚ) (c : ℤ) (h1 : (10 : ℚ) ^ (c - 1) < x)
    (h2 : x ≤ 10 ^ c) : ceilLog10 x = c := by
  have hx : 0 < x := lt_trans (zpow_pos (by norm_num) (c - 1)) h1
  obtain ⟨l1, l2⟩ := ceilLog10_spec x hx
  by_contra hne
  rcases lt_or_gt_of_ne hne with h | h
  · have : (10 : ℚ) ^ ceilLog10 x ≤ 10 ^ (c - 1) :=
      zpow_le_zpow_right₀ (by norm_num) (by omega)
    linarith
  · have : (10 : ℚ) ^ c ≤ 10 ^ (ceilLog10 x - 1) :=
      zpow_le_zpow_right₀ (by norm_num) (by omega)
    linarith

/-- Rounding a rational (`round` is `⌊q + 1/2⌋`) pinned down by two
inequalities, used to evaluate `round` on concrete inputs. -/
theorem round_rat_eq (q : ℚ) (n : ℤ) (h1 : (n : ℚ) - 1/2 ≤ q)
    (h2 : q < n + 1/2) : round q = n := by
  rw [round_eq]
  rw [Int.floor_eq_iff]
  constructor <;> push_cast <;> linarith

/-- `numpy.around(v, 1)`: round to one decimal place.  Rounds halves up;
see the header note on tie behaviour. -/
def around1 (v : ℚ) : ℚ := ((round (v * 10) : ℤ) : ℚ) / 10

/-- Drop trailing zero digits (the fractional part of a `%g` rendering). -/
def stripTrailingZeros (ds : List ℕ) : List ℕ :=
  (ds.reverse.dropWhile (fun d => d = 0)).reverse

/-- "." followed by the digits, or nothing when they are all zero. -/
def fracPart (ds : List ℕ) : List Char :=
  match stripTrailingZeros ds with
  | [] => []
  | ds' => '.' :: ds'.map Nat.digitChar

/-- Exponent suffix of scientific `%g` output: sign then at least two
digits. -/
def expChars (e : ℤ) : List Char :=
  (if e < 0 then ['-'] else ['+']) ++
    (if e.natAbs < 10 then '0' :: Nat.toDigits 10 e.natAbs
     else Nat.toDigits 10 e.natAbs)

/-- Fixed-point rendering of `d1.d2d3 × 10^e` (three significant digits
`n = d1d2d3 ∈ [100, 999]`, `-4 ≤ e ≤ 2`), trailing zeros stripped. -/
def fixed3 (n e : ℤ) : List Char :=
  let d1 := n.toNat / 100
  let d2 := n.toNat / 10 % 10
  let d3 := n.toNat % 10
  if e = 2 then [Nat.digitChar d1, Nat.digitChar d2, Nat.digitChar d3]
  else if e = 1 then Nat.digitChar d1 :: Nat.digitChar d2 :: fracPart [d3]
  else if e = 0 then Nat.digitChar d1 :: fracPart [d2, d3]
  else '0' :: '.' :: (List.replicate (-e - 1).toNat '0' ++
    (stripTrailingZeros [d1, d2, d3]).map Nat.digitChar)

/-- Scientific rendering of `d1.d2d3e±ee`. -/
def sci3 (n e : ℤ) : List Char :=
  let d1 := n.toNat / 100
  let d2 := n.toNat / 10 % 10
  let d3 := n.toNat % 10
  Nat.digitChar d1 :: (fracPart [d2, d3] ++ 'e' :: expChars e)

/-- `%.3g` rendering from the three rounded significant digits
`n ∈ [100, 1000]` and the decade `e`; a round-up to `1000` carries into
the next decade, and Python's `%g` switches to scientific for decades
outside `[-4, 3)`. -/
def fmt3gFrom (n e : ℤ) : List Char :=
  if n = 1000 then
    if -4 ≤ e + 1 ∧ e + 1 < 3 then fixed3 100 (e + 1) else sci3 100 (e + 1)
  else
    if -4 ≤ e ∧ e < 3 then fixed3 n e else sci3 n e

/-- The characters of `f'{y:.3g}'` for a positive rational `y` (the value
`x/mul` inside `MyLogFormatter.__call__`); `['0']` is a junk value on the
unreachable nonpositive inputs. -/
def fmt3gChars (y : ℚ) : List Char :=
  if y ≤ 0 then ['0']
  else fmt3gFrom (round (y / 10 ^ (floorLog10 y - 2))) (floorLog10 y)

/-- The `for mul, prefix in [(1e6, 'M'), (1e3, 'k'), (1, ''), (1e-3, 'm')]`
loop of `MyLogFormatter.__call__`: the first pair whose multiplier does
not exceed `x` is taken (`break`); when none qualifies the loop leaves the
last pair bound. -/
def selectMul (x : ℚ) : ℚ × String :=
  if x ≥ 1000000 then (1000000, "M")
  else if x ≥ 1000 then (1000, "k")
  else if x ≥ 1 then (1, "")
  else (1/1000, "m")

/-- `np.around(x * 10 ** -np.floor(np.log10(x)), 1)` — the rounded
mantissa `MyLogFormatter.__call__` computes first. -/
def mantisseOf (x : ℚ) : ℚ := around1 (x * 10 ^ (-floorLog10 x))

/-- `MyLogFormatter.__call__(x)`: empty label when the rounded mantissa is
6, 8 or 9, otherwise the `%.3g` rendering of `x/mul` followed by the
multiplier's letter. -/
def MyLogFormatter_call (x : ℚ) : String :=
  if mantisseOf x = 6 ∨ mantisseOf x = 8 ∨ mantisseOf x = 9 then ""
  else String.mk (fmt3gChars (x / (selectMul x).1)) ++ (selectMul x).2

theorem fixed3_ne_nil (n e : ℤ) : fixed3 n e ≠ [] := by
  unfold fixed3
  split
  · simp
  · split
    · simp
    · split <;> simp

theorem sci3_ne_nil (n e : ℤ) : sci3 n e ≠ [] := by
  unfold sci3; simp

theorem fmt3gFrom_ne_nil (n e : ℤ) : fmt3gFrom n e ≠ [] := by
  unfold fmt3gFrom
  split
  · split
    · exact fixed3_ne_nil _ _
    · exact sci3_ne_nil _ _
  · split
    · exact fixed3_ne_nil _ _
    · exact sci3_ne_nil _ _

theorem fmt3gChars_ne_nil (y : ℚ) : fmt3gChars y ≠ [] := by
  unfold fmt3gChars
  split
  · simp
  · exact fmt3gFrom_ne_nil _ _

/-- Evaluation helper: pin down `mantisseOf x` from the decade of `x` and
the rounded value. -/
theorem mantisseOf_eval (x : ℚ) (e v : ℤ) (he : floorLog10 x = e)
    (h1 : (v : ℚ) - 1/2 ≤ x * 10 ^ (-e) * 10)
    (h2 : x * 10 ^ (-e) * 10 < v + 1/2) :
    mantisseOf x = (v : ℚ) / 10 := by
  unfold mantisseOf around1
  rw [he, round_rat_eq _ v h1 h2]

/-- Evaluation helper: pin down `fmt3gChars y` from the decade and rounded
significant digits. -/
theorem fmt3gChars_eval (y : ℚ) (e n : ℤ) (hy : ¬ y ≤ 0)
    (he : floorLog10 y = e) (hr : round (y / 10 ^ (e - 2)) = n) :
    fmt3gChars y = fmt3gFrom n e := by
  unfold fmt3gChars
  rw [if_neg hy, he, hr]

/-- The multiplier table `{1e6, 1e3, 1, 1e-3}` of `MyLogFormatter.__call__`
as a set, for stating which multiplier is the largest one below the tick
value. -/
def specMulSet : Set ℚ := {1000000, 1000, 1, 1/1000}

/-- The suffix the code pairs with each multiplier:
`{1e6: 'M', 1e3: 'k', 1: '', 1e-3: 'm'}`. -/
def suffixFor (m : ℚ) : String :=
  if m = 1000000 then "M" else if m = 1000 then "k"
  else if m = 1 then "" else "m"

/-- **C3.** For every positive tick value `x`, the installed log-axis label
formatter returns the empty string exactly when the mantissa of `x`
(`x` scaled by `10 ^ (-⌊log10 x⌋)`, rounded to 1 decimal place) is 6, 8,
or 9. -/
theorem c3_log_label_empty_iff (x : ℚ) (hx : 0 < x) :
    MyLogFormatter_call x = "" ↔
      mantisseOf x = 6 ∨ mantisseOf x = 8 ∨ mantisseOf x = 9 := by
  unfold MyLogFormatter_call
  split
  · rename_i h
    simpa using h
  · rename_i h
    simp only [h, iff_false]
    intro habs
    have hd := congrArg String.data habs
    simp at hd
    exact fmt3gChars_ne_nil _ hd.1

/-- **C3 witness.** The formatter suppresses the labels of 600 (mantissa 6)
and 80000 (mantissa 8). -/
theorem c3_log_label_empty_witness :
    MyLogFormatter_call 600 = "" ∧ MyLogFormatter_call 80000 = "" := by
  constructor
  · apply (c3_log_label_empty_iff 600 (by norm_num)).mpr
    left
    have h := mantisseOf_eval 600 2 60
      (floorLog10_eq_of 600 2 (by norm_num) (by norm_num)) (by norm_num) (by norm_num)
    rw [h]; norm_num
  · apply (c3_log_label_empty_iff 80000 (by norm_num)).mpr
    right; left
    have h := mantisseOf_eval 80000 4 80
      (floorLog10_eq_of 80000 4 (by norm_num) (by norm_num)) (by norm_num) (by norm_num)
    rw [h]; norm_num

/-- **C4.** For every positive tick value `x` not suppressed by the
mantissa rule and at least `1e-3` (so that some multiplier of the table
does not exceed it), the formatter divides by the largest multiplier of
`{1e6, 1e3, 1, 1e-3}` not exceeding `x`, renders to three significant
figures, and appends that multiplier's suffix. -/
theorem c4_log_label_multiplier (x : ℚ) (hx : 0 < x)
    (hm : ¬(mantisseOf x = 6 ∨ mantisseOf x = 8 ∨ mantisseOf x = 9))
    (hge : (1 : ℚ)/1000 ≤ x) :
    ∃ m, (m ∈ specMulSet ∧ m ≤ x ∧ ∀ u ∈ specMulSet, u ≤ x → u ≤ m) ∧
      MyLogFormatter_call x = String.mk (fmt3gChars (x / m)) ++ suffixFor m := by
  unfold MyLogFormatter_call
  rw [if_neg hm]
  unfold selectMul
  by_cases h1 : x ≥ 1000000
  · rw [if_pos h1]
    refine ⟨1000000, ⟨by simp [specMulSet], by linarith, ?_⟩, ?_⟩
    · intro u hu _
      simp [specMulSet] at hu
      rcases hu with h | h | h | h <;> subst h <;> norm_num
    · rw [show suffixFor 1000000 = "M" by rw [suffixFor, if_pos rfl]]
  · rw [if_neg h1]
    by_cases h2 : x ≥ 1000
    · rw [if_pos h2]
      refine ⟨1000, ⟨by simp [specMulSet], by linarith, ?_⟩, ?_⟩
      · intro u hu hux
        simp [specMulSet] at hu
        rcases hu with h | h | h | h <;> subst h
        · exact absurd hux h1
        · norm_num
        · norm_num
        · norm_num
      · rw [show suffixFor 1000 = "k" by
          rw [suffixFor, if_neg (by norm_num), if_pos rfl]]
    · rw [if_neg h2]
      by_cases h3 : x ≥ 1
      · rw [if_pos h3]
        refine ⟨1, ⟨by simp [specMulSet], by linarith, ?_⟩, ?_⟩
        · intro u hu hux
          simp [specMulSet] at hu
          rcases hu with h | h | h | h <;> subst h
          · exact absurd hux h1
          · exact absurd hux h2
          · norm_num
          · norm_num
        · rw [show suffixFor 1 = "" by
            rw [suffixFor, if_neg (by norm_num), if_neg (by norm_num), if_pos rfl]]
      · rw [if_neg h3]
        refine ⟨1/1000, ⟨by simp [specMulSet], hge, ?_⟩, ?_⟩
        · intro u hu hux
          simp [specMulSet] at hu
          rcases hu with h | h | h | h <;> subst h
          · exact absurd hux h1
          · exact absurd hux h2
          · exact absurd hux h3
          · norm_num
        · rw [show suffixFor (1/1000) = "m" by
            rw [suffixFor, if_neg (by norm_num), if_neg (by norm_num),
              if_neg (by norm_num)]]

/-- **C4 witness.** 1500 renders as "1.5k" (multiplier 1000) and 2000000
as "2M" (multiplier 1e6). -/
theorem c4_log_label_multiplier_witness :
    MyLogFormatter_call 1500 = "1.5k" ∧ MyLogFormatter_call 2000000 = "2M" := by
  constructor
  · have hm1500 : mantisseOf 1500 = 3/2 := by
      have h := mantisseOf_eval 1500 3 15
        (floorLog10_eq_of 1500 3 (by norm_num) (by norm_num)) (by norm_num) (by norm_num)
      rw [h]; norm_num
    obtain ⟨m, ⟨hmem, hle, hmax⟩, heq⟩ :=
      c4_log_label_multiplier 1500 (by norm_num) (by rw [hm1500]; norm_num) (by norm_num)
    have h1000 : (1000 : ℚ) ≤ m := hmax 1000 (by simp [specMulSet]) (by norm_num)
    have hm' : m = 1000 := by
      simp [specMulSet] at hmem
      rcases hmem with h | h | h | h <;> subst h
      · linarith
      · rfl
      · linarith
      · linarith
    subst hm'
    rw [heq, fmt3gChars_eval (1500/1000) 0 150 (by norm_num)
      (floorLog10_eq_of _ 0 (by norm_num) (by norm_num))
      (round_rat_eq _ 150 (by norm_num) (by norm_num))]
    rw [show suffixFor 1000 = "k" by
      rw [suffixFor, if_neg (by norm_num), if_pos rfl]]
    decide
  · have hm2e6 : mantisseOf 2000000 = 2 := by
      have h := mantisseOf_eval 2000000 6 20
        (floorLog10_eq_of 2000000 6 (by norm_num) (by norm_num)) (by norm_num) (by norm_num)
      rw [h]; norm_num
    obtain ⟨m, ⟨hmem, hle, hmax⟩, heq⟩ :=
      c4_log_label_multiplier 2000000 (by norm_num) (by rw [hm2e6]; norm_num) (by norm_num)
    have h1e6 : (1000000 : ℚ) ≤ m := hmax 1000000 (by simp [specMulSet]) (by norm_num)
    have hm' : m = 1000000 := by
      simp [specMulSet] at hmem
      rcases hmem with h | h | h | h <;> subst h
      · rfl
      · linarith
      · linarith
      · linarith
    subst hm'
    rw [heq, fmt3gChars_eval (2000000/1000000) 0 200 (by norm_num)
      (floorLog10_eq_of _ 0 (by norm_num) (by norm_num))
      (round_rat_eq _ 200 (by norm_num) (by norm_num))]
    rw [show suffixFor 1000000 = "M" by rw [suffixFor, if_pos rfl]]
    decide

/-- **C8.** For every positive value below `1e-3` no multiplier of the
table is ≤ the value, and the formatter (when the mantissa rule does not
suppress the label) falls through to the last pair bound by the loop,
`(1e-3, 'm')`. -/
theorem c8_log_label_fallthrough (x : ℚ) (hx : 0 < x) (hlt : x < 1/1000)
    (hm : ¬(mantisseOf x = 6 ∨ mantisseOf x = 8 ∨ mantisseOf x = 9)) :
    (∀ u ∈ specMulSet, ¬ u ≤ x) ∧
      MyLogFormatter_call x = String.mk (fmt3gChars (x / (1/1000))) ++ "m" := by
  constructor
  · intro u hu hle
    simp [specMulSet] at hu
    rcases hu with h | h | h | h <;> subst h <;> linarith
  · unfold MyLogFormatter_call
    rw [if_neg hm]
    unfold selectMul
    rw [if_neg (not_le.mpr (by linarith)), if_neg (not_le.mpr (by linarith)),
      if_neg (not_le.mpr (by linarith))]

/-- **C8 witness.** At `x = 1/2000` (mantissa 5) the formatter renders
`0.5` with suffix `m`. -/
theorem c8_log_label_fallthrough_witness :
    MyLogFormatter_call (1/2000) = "0.5m" := by
  have hm : mantisseOf (1/2000) = 5 := by
    have h := mantisseOf_eval (1/2000) (-4) 50
      (floorLog10_eq_of _ (-4) (by norm_num) (by norm_num)) (by norm_num) (by norm_num)
    rw [h]; norm_num
  have h := (c8_log_label_fallthrough (1/2000) (by norm_num) (by norm_num)
    (by rw [hm]; norm_num)).2
  rw [h, fmt3gChars_eval ((1/2000) / (1/1000)) (-1) 500 (by norm_num)
    (floorLog10_eq_of _ (-1) (by norm_num) (by norm_num))
    (round_rat_eq _ 500 (by norm_num) (by norm_num))]
  decide

/-- The tick locators `set_xaxis_dateformat` installs
(`matplotlib.dates`). -/
inductive Locator
  | dayLocator
  | mondayLocator
  | monthLocator
  | monthLocator14710
deriving DecidableEq

/-- Which label formatter is installed on the vertical axis: the one the
axis had initially, or the `MyLogFormatter` instance. -/
inductive YFormatter
  | initial
  | myLog
deriving DecidableEq

/-- The label function denoted by a formatter tag: `.myLog` is the
`MyLogFormatter` instance whose call method is `MyLogFormatter_call`;
the initial formatter is unknown. -/
def YFormatter.semantics : YFormatter → Option (ℚ → String)
  | .initial => none
  | .myLog => some MyLogFormatter_call

/-- The slice of matplotlib axis state the library reads or writes:
view limits, locators, formatters, tick-label styling, axis title, grid
visibility, tick direction and the minor tick positions. -/
structure Axis where
  xlim : ℚ × ℚ
  ylim : ℚ × ℚ
  xMajorLocator : Option Locator
  xMinorLocator : Option Locator
  xMajorFormat : Option String
  xTickRotation : Option ℚ
  xTickHAlign : Option String
  xLabel : Option String
  gridMajorBoth : Bool
  gridMinorX : Bool
  gridMinorY : Bool
  xMinorTickDirectionIn : Bool
  yMinorTicks : List ℚ
  yMajorFormatter : YFormatter
  yMinorFormatter : YFormatter
deriving DecidableEq

/-- `(date_hi - date_lo).days`: matplotlib date numbers are fractional
days, and a `Timedelta`'s `.days` field is the floor of the difference. -/
def daySpan (ax : Axis) : ℤ := ⌊ax.xlim.2 - ax.xlim.1⌋

/-- What one run of the `if day_span <= ...` chain of
`set_xaxis_dateformat` decides: major and minor locator, date format
string, the `minor_grid` flag, and whether minor x ticks point inward
(the `tick_params` call of the monthly branch). -/
structure DateFmtChoice where
  major : Locator
  minor : Option Locator
  fmt : String
  minor_grid : Bool
  minorTickIn : Bool
deriving DecidableEq

/-- The decision chain of `set_xaxis_dateformat` (source lines 35-55):
`30.5` is exact in binary floating point, so the comparison
`day_span <= maxticks*30.5` is the exact rational comparison. -/
def dateformatChoice (day_span : ℤ) (maxticks : ℚ) : DateFmtChoice :=
  if (day_span : ℚ) ≤ maxticks then
    ⟨.dayLocator, none, "%a %Y-%m-%d", false, false⟩
  else if (day_span : ℚ) ≤ maxticks * 7 then
    ⟨.mondayLocator, some .dayLocator, "%a %Y-%m-%d", true, false⟩
  else if (day_span : ℚ) ≤ maxticks * 30.5 then
    ⟨.monthLocator, some .mondayLocator, "%Y-%m-%d",
      if (day_span : ℚ) ≤ maxticks * 25 then true else false, true⟩
  else
    ⟨.monthLocator14710, some .monthLocator, "%Y-%m-%d",
      if (day_span : ℚ) < maxticks * 90 then true else false, false⟩

/-- Python truthiness of the `xlabel` argument: `None` and the empty
string are falsy. -/
def pyTruthy : Option String → Bool
  | none => false
  | some s => s != ""

/-- `set_xaxis_dateformat(ax, xlabel, maxticks, yminor, ticklabels)` as a
transformer of the axis state: installs the locators the decision chain
picked (the daily branch leaves the minor locator untouched), always
turns on the major grid for both axes, turns on the minor grid where
requested, and applies date format, label rotation −20° and left
alignment only when `ticklabels` is true; a truthy `xlabel` replaces the
axis title. -/
def set_xaxis_dateformat (ax : Axis) (xlabel : Option String) (maxticks : ℚ)
    (yminor : Bool) (ticklabels : Bool) : Axis :=
  let c := dateformatChoice (daySpan ax) maxticks
  { ax with
    xMajorLocator := some c.major
    xMinorLocator := match c.minor with
      | some l => some l
      | none => ax.xMinorLocator
    xMinorTickDirectionIn :=
      if c.minorTickIn then true else ax.xMinorTickDirectionIn
    gridMajorBoth := true
    gridMinorX := if c.minor_grid then true else ax.gridMinorX
    gridMinorY := if yminor then true else ax.gridMinorY
    xMajorFormat := if ticklabels then some c.fmt else ax.xMajorFormat
    xTickRotation := if ticklabels then some (-20) else ax.xTickRotation
    xTickHAlign := if ticklabels then some "left" else ax.xTickHAlign
    xLabel := if pyTruthy xlabel then xlabel else ax.xLabel }

/-- The mantissa row `np.array([1.5, 2, 3, 4, 5, 6, 7, 8, 9])` of
`set_dense_minor_yticks` (the source calls it `mticks` before scaling). -/
def mantissaTicks : List ℚ := [1.5, 2, 3, 4, 5, 6, 7, 8, 9]

/-- The minor tick values `set_dense_minor_yticks` computes: each
mantissa times `10^k` for every decade `k` in
`[floor(log10(ymin/4)), ceil(log10(ymax*4)))`, filtered to the open
interval `(ymin/4, ymax*4)` — numpy's `arange(emin, emax)` stops one
short of `emax`, and the boolean mask keeps row-major order (decade by
decade, mantissa by mantissa). -/
def denseMinorTicks (ymin ymax : ℚ) : List ℚ :=
  ((List.range (ceilLog10 (ymax * 4) - floorLog10 (ymin / 4)).toNat).flatMap
    (fun i => mantissaTicks.map
      (fun m => m * (10 : ℚ) ^ (floorLog10 (ymin / 4) + (i : ℤ))))).filter
    (fun t => decide (ymin / 4 < t) && decide (t < ymax * 4))

/-- `set_dense_minor_yticks(ax)`: a range of more than two decades
(`ymax/ymin > 100`) is left alone; otherwise the minor ticks are replaced
by `denseMinorTicks` and the vertical range is restored. -/
def set_dense_minor_yticks (ax : Axis) : Axis :=
  if ax.ylim.2 / ax.ylim.1 > 100 then ax
  else { ax with
    yMinorTicks := denseMinorTicks ax.ylim.1 ax.ylim.2
    ylim := (ax.ylim.1, ax.ylim.2) }

/-- `set_yaxis_log_minor_labels(ax)`: installs the `MyLogFormatter`
instance as both the minor and the major formatter of the y axis, then
calls `set_dense_minor_yticks`. -/
def set_yaxis_log_minor_labels (ax : Axis) : Axis :=
  set_dense_minor_yticks
    { ax with yMinorFormatter := .myLog, yMajorFormatter := .myLog }

/-- `pause_commandline(msg)`: the list of blocking console prompts the
call issues given the set of environment variable names — `input(msg)`
exactly when `SPYDER_ARGS` is not in the environment. -/
def pause_commandline (environ : List String) (msg : String) : List String :=
  if "SPYDER_ARGS" ∈ environ then [] else [msg]

/-- **C1.** For every day span and maxticks value, the decision chain of
`set_xaxis_dateformat` selects exactly the branch of the spec's decision
table: daily ticks and no minor locator up to `maxticks` days; Monday
majors with daily minors and the minor grid up to `7*maxticks`; monthly
majors with Monday minors up to `30.5*maxticks` with the minor grid iff
the span is at most `25*maxticks`; otherwise quarterly (Jan/Apr/Jul/Oct)
majors with monthly minors and the minor grid iff the span is under
`90*maxticks`. -/
theorem c1_dateformat_decision_table (ds : ℤ) (M : ℚ) :
    ((ds : ℚ) ≤ M →
      (dateformatChoice ds M).major = Locator.dayLocator ∧
      (dateformatChoice ds M).minor = none ∧
      (dateformatChoice ds M).fmt = "%a %Y-%m-%d" ∧
      (dateformatChoice ds M).minor_grid = false) ∧
    (M < ds ∧ (ds : ℚ) ≤ M * 7 →
      (dateformatChoice ds M).major = Locator.mondayLocator ∧
      (dateformatChoice ds M).minor = some Locator.dayLocator ∧
      (dateformatChoice ds M).fmt = "%a %Y-%m-%d" ∧
      (dateformatChoice ds M).minor_grid = true) ∧
    (M * 7 < ds ∧ (ds : ℚ) ≤ M * 30.5 →
      (dateformatChoice ds M).major = Locator.monthLocator ∧
      (dateformatChoice ds M).minor = some Locator.mondayLocator ∧
      (dateformatChoice ds M).fmt = "%Y-%m-%d" ∧
      ((dateformatChoice ds M).minor_grid = true ↔ (ds : ℚ) ≤ M * 25)) ∧
    (¬ (ds : ℚ) ≤ M ∧ ¬ (M < ds ∧ (ds : ℚ) ≤ M * 7) ∧
        ¬ (M * 7 < ds ∧ (ds : ℚ) ≤ M * 30.5) →
      (dateformatChoice ds M).major = Locator.monthLocator14710 ∧
      (dateformatChoice ds M).minor = some Locator.monthLocator ∧
      (dateformatChoice ds M).fmt = "%Y-%m-%d" ∧
      ((dateformatChoice ds M).minor_grid = true ↔ (ds : ℚ) < M * 90)) := by
  refine ⟨fun h => ?_, fun h => ?_, fun h => ?_, fun h => ?_⟩
  · unfold dateformatChoice
    rw [if_pos h]
    exact ⟨rfl, rfl, rfl, rfl⟩
  · obtain ⟨h1, h2⟩ := h
    unfold dateformatChoice
    rw [if_neg (not_le.mpr h1), if_pos h2]
    exact ⟨rfl, rfl, rfl, rfl⟩
  · obtain ⟨h1, h2⟩ := h
    unfold dateformatChoice
    rw [if_neg (by intro hc; linarith), if_neg (not_le.mpr h1), if_pos h2]
    refine ⟨rfl, rfl, rfl, ?_⟩
    split
    · rename_i hcond; simp [hcond]
    · rename_i hcond; simp [hcond]
  · obtain ⟨h1, h2, h3⟩ := h
    unfold dateformatChoice
    have hg2 : ¬ (ds : ℚ) ≤ M * 7 := fun hc => h2 ⟨not_le.mp h1, hc⟩
    have hg3 : ¬ (ds : ℚ) ≤ M * 30.5 := fun hc => h3 ⟨not_le.mp hg2, hc⟩
    rw [if_neg h1, if_neg hg2, if_neg hg3]
    refine ⟨rfl, rfl, rfl, ?_⟩
    split
    · rename_i hcond; simp [hcond]
    · rename_i hcond; simp [hcond]

/-- **C2.** The day-span thresholds are inclusive: at exactly `maxticks`,
`7*maxticks` and `30.5*maxticks` days the lower-span branch is selected,
the minor grid is on at exactly `25*maxticks` and off at exactly
`90*maxticks`. -/
theorem c2_dateformat_boundaries (ds : ℤ) (M : ℚ) (hM : 0 < M) :
    ((ds : ℚ) = M → (dateformatChoice ds M).major = Locator.dayLocator) ∧
    ((ds : ℚ) = M * 7 →
      (dateformatChoice ds M).major = Locator.mondayLocator) ∧
    ((ds : ℚ) = M * 30.5 →
      (dateformatChoice ds M).major = Locator.monthLocator) ∧
    ((ds : ℚ) = M * 25 → (dateformatChoice ds M).minor_grid = true) ∧
    ((ds : ℚ) = M * 90 → (dateformatChoice ds M).minor_grid = false) := by
  refine ⟨fun h => ?_, fun h => ?_, fun h => ?_, fun h => ?_, fun h => ?_⟩
  · unfold dateformatChoice
    rw [h, if_pos le_rfl]
  · unfold dateformatChoice
    rw [h, if_neg (by linarith), if_pos le_rfl]
  · unfold dateformatChoice
    rw [h, if_neg (by linarith), if_neg (by linarith), if_pos le_rfl]
  · unfold dateformatChoice
    rw [h, if_neg (by linarith), if_neg (by linarith), if_pos (by linarith)]
    simp only []
    rw [if_pos le_rfl]
  · unfold dateformatChoice
    rw [h, if_neg (by linarith), if_neg (by linarith), if_neg (by linarith)]
    simp only []
    rw [if_neg (by linarith)]

/-- **C2 witness.** With `maxticks = 2`: spans 2, 14 and 61 days land in
the daily, Monday and monthly branches; the minor grid is on at a span
of 50 days and off at 180 days. -/
theorem c2_dateformat_boundaries_witness :
    (dateformatChoice 2 2).major = Locator.dayLocator ∧
    (dateformatChoice 14 2).major = Locator.mondayLocator ∧
    (dateformatChoice 61 2).major = Locator.monthLocator ∧
    (dateformatChoice 50 2).minor_grid = true ∧
    (dateformatChoice 180 2).minor_grid = false :=
  ⟨(c2_dateformat_boundaries 2 2 (by norm_num)).1 (by norm_num),
   (c2_dateformat_boundaries 14 2 (by norm_num)).2.1 (by norm_num),
   (c2_dateformat_boundaries 61 2 (by norm_num)).2.2.1 (by norm_num),
   (c2_dateformat_boundaries 50 2 (by norm_num)).2.2.2.1 (by norm_num),
   (c2_dateformat_boundaries 180 2 (by norm_num)).2.2.2.2 (by norm_num)⟩

/-- **C7.** `pause_commandline` issues its blocking console prompt exactly
when the `SPYDER_ARGS` environment variable is absent; when the marker is
present it returns without prompting. -/
theorem c7_pause_commandline_iff (environ : List String) (msg : String) :
    (pause_commandline environ msg = [msg] ↔ "SPYDER_ARGS" ∉ environ) ∧
    (pause_commandline environ msg = [] ↔ "SPYDER_ARGS" ∈ environ) := by
  unfold pause_commandline
  split <;> rename_i h <;> simp [h]

/-- **C10.** `set_xaxis_dateformat` mutates only what its flags request:
with `ticklabels = false` no date format, rotation or alignment change is
made; with `xlabel = None` the axis title is untouched; the view limits
are never modified. -/
theorem c10_dateformat_frame (ax : Axis) (xlabel : Option String)
    (maxticks : ℚ) (yminor ticklabels : Bool) :
    (ticklabels = false →
      (set_xaxis_dateformat ax xlabel maxticks yminor ticklabels).xMajorFormat
          = ax.xMajorFormat ∧
      (set_xaxis_dateformat ax xlabel maxticks yminor ticklabels).xTickRotation
          = ax.xTickRotation ∧
      (set_xaxis_dateformat ax xlabel maxticks yminor ticklabels).xTickHAlign
          = ax.xTickHAlign) ∧
    (xlabel = none →
      (set_xaxis_dateformat ax xlabel maxticks yminor ticklabels).xLabel
          = ax.xLabel) ∧
    (set_xaxis_dateformat ax xlabel maxticks yminor ticklabels).xlim = ax.xlim ∧
    (set_xaxis_dateformat ax xlabel maxticks yminor ticklabels).ylim = ax.ylim := by
  refine ⟨fun h => ?_, fun h => ?_, rfl, rfl⟩
  · subst h
    exact ⟨rfl, rfl, rfl⟩
  · subst h
    rfl

/-- A concrete axis state used to instantiate the theorems: horizontal
range of five days, vertical range `[1, 500]` (ratio 500, more than two
decades), nothing installed yet. -/
def sampleAxis : Axis where
  xlim := (0, 5)
  ylim := (1, 500)
  xMajorLocator := none
  xMinorLocator := none
  xMajorFormat := none
  xTickRotation := none
  xTickHAlign := none
  xLabel := none
  gridMajorBoth := false
  gridMinorX := false
  gridMinorY := false
  xMinorTickDirectionIn := false
  yMinorTicks := []
  yMajorFormatter := YFormatter.initial
  yMinorFormatter := YFormatter.initial

/-- **C10 witness.** On a concrete axis with `ticklabels = false` and no
label, format, rotation, alignment, title and view limits are all
untouched. -/
theorem c10_dateformat_frame_witness :
    (set_xaxis_dateformat sampleAxis none 10 false false).xMajorFormat
        = sampleAxis.xMajorFormat ∧
    (set_xaxis_dateformat sampleAxis none 10 false false).xLabel
        = sampleAxis.xLabel ∧
    (set_xaxis_dateformat sampleAxis none 10 false false).xlim
        = sampleAxis.xlim := by
  obtain ⟨h1, h2, h3, _⟩ := c10_dateformat_frame sampleAxis none 10 false false
  exact ⟨(h1 rfl).1, h2 rfl, h3⟩

/-- **C6.** On a vertical range whose ratio exceeds 100,
`set_yaxis_log_minor_labels` installs the `MyLogFormatter` label function
on both the major and the minor ticks but adds no extra minor ticks, and
the vertical range is left unchanged. -/
theorem c6_log_minor_labels_wide_range (ax : Axis)
    (hr : 100 < ax.ylim.2 / ax.ylim.1) :
    (set_yaxis_log_minor_labels ax).yMajorFormatter = YFormatter.myLog ∧
    (set_yaxis_log_minor_labels ax).yMinorFormatter = YFormatter.myLog ∧
    YFormatter.semantics (set_yaxis_log_minor_labels ax).yMajorFormatter
        = some MyLogFormatter_call ∧
    YFormatter.semantics (set_yaxis_log_minor_labels ax).yMinorFormatter
        = some MyLogFormatter_call ∧
    (set_yaxis_log_minor_labels ax).yMinorTicks = ax.yMinorTicks ∧
    (set_yaxis_log_minor_labels ax).ylim = ax.ylim := by
  unfold set_yaxis_log_minor_labels set_dense_minor_yticks
  rw [if_pos hr]
  exact ⟨rfl, rfl, rfl, rfl, rfl, rfl⟩

/-- **C6 witness.** On the sample axis (range `[1, 500]`, ratio 500) the
formatter is installed and ticks and range are untouched. -/
theorem c6_log_minor_labels_wide_range_witness :
    (set_yaxis_log_minor_labels sampleAxis).yMajorFormatter = YFormatter.myLog ∧
    (set_yaxis_log_minor_labels sampleAxis).yMinorTicks = sampleAxis.yMinorTicks ∧
    (set_yaxis_log_minor_labels sampleAxis).ylim = sampleAxis.ylim := by
  obtain ⟨h1, _, _, _, h5, h6⟩ :=
    c6_log_minor_labels_wide_range sampleAxis (by norm_num [sampleAxis])
  exact ⟨h1, h5, h6⟩

/-- Membership in `denseMinorTicks`: exactly the products of a mantissa
and a decade in the enumerated range that lie strictly inside the padded
interval. -/
theorem mem_denseMinorTicks (ymin ymax t : ℚ) :
    t ∈ denseMinorTicks ymin ymax ↔
      ((∃ m ∈ mantissaTicks, ∃ k : ℤ,
          floorLog10 (ymin / 4) ≤ k ∧ k < ceilLog10 (ymax * 4) ∧
          t = m * 10 ^ k) ∧ ymin / 4 < t ∧ t < ymax * 4) := by
  unfold denseMinorTicks
  simp only [List.mem_filter, List.mem_flatMap, List.mem_range, List.mem_map,
    Bool.and_eq_true, decide_eq_true_eq]
  constructor
  · rintro ⟨⟨i, hi, m, hm, rfl⟩, h1, h2⟩
    refine ⟨⟨m, hm, floorLog10 (ymin / 4) + (i : ℤ), by omega, by omega, rfl⟩,
      h1, h2⟩
  · rintro ⟨⟨m, hm, k, hk1, hk2, rfl⟩, h1, h2⟩
    refine ⟨⟨(k - floorLog10 (ymin / 4)).toNat, by omega, m, hm, ?_⟩, h1, h2⟩
    have hke : floorLog10 (ymin / 4) + ((k - floorLog10 (ymin / 4)).toNat : ℤ)
        = k := by omega
    rw [hke]

/-- **C5.** On a vertical range `[ymin, ymax]` with ratio at most 100,
`set_dense_minor_yticks` sets the minor ticks to exactly the values
`m * 10^k` with `m ∈ {1.5, 2, ..., 9}` and `k` an enumerated decade,
restricted to the open interval `(ymin/4, ymax*4)`, and restores the
vertical range. -/
theorem c5_dense_minor_yticks (ax : Axis) (ymin ymax : ℚ)
    (hl : ax.ylim = (ymin, ymax)) (h0 : 0 < ymin) (hr : ymax / ymin ≤ 100) :
    (set_dense_minor_yticks ax).yMinorTicks = denseMinorTicks ymin ymax ∧
    (set_dense_minor_yticks ax).ylim = (ymin, ymax) ∧
    ∀ t : ℚ, t ∈ (set_dense_minor_yticks ax).yMinorTicks ↔
      ((∃ m ∈ mantissaTicks, ∃ k : ℤ,
          floorLog10 (ymin / 4) ≤ k ∧ k < ceilLog10 (ymax * 4) ∧
          t = m * 10 ^ k) ∧ ymin / 4 < t ∧ t < ymax * 4) := by
  unfold set_dense_minor_yticks
  rw [hl]
  rw [if_neg (not_lt.mpr hr)]
  refine ⟨rfl, rfl, fun t => ?_⟩
  exact mem_denseMinorTicks ymin ymax t

/-- The sample axis with the vertical range `[1, 50]` of the spec's
example (ratio 50, at most two decades). -/
def sampleAxisDense : Axis := { sampleAxis with ylim := (1, 50) }

/-- **C5 witness.** On the range `[1, 50]` the produced minor ticks
contain 1.5 and 15, the range is restored, and every tick lies within
`[0.25, 200]`. -/
theorem c5_dense_minor_yticks_witness :
    (set_dense_minor_yticks sampleAxisDense).ylim = (1, 50) ∧
    (3/2 : ℚ) ∈ (set_dense_minor_yticks sampleAxisDense).yMinorTicks ∧
    (15 : ℚ) ∈ (set_dense_minor_yticks sampleAxisDense).yMinorTicks ∧
    ((set_dense_minor_yticks sampleAxisDense).yMinorTicks.all
      (fun t => decide ((1 : ℚ)/4 ≤ t) && decide (t ≤ 200))) = true := by
  obtain ⟨hticks, hylim, hiff⟩ :=
    c5_dense_minor_yticks sampleAxisDense 1 50 rfl (by norm_num) (by norm_num)
  refine ⟨hylim, ?_, ?_, ?_⟩
  · apply (hiff (3/2)).mpr
    refine ⟨⟨3/2, by norm_num [mantissaTicks], 0, ?_, ?_, by norm_num⟩,
      by norm_num, by norm_num⟩
    · rw [floorLog10_eq_of ((1 : ℚ)/4) (-1) (by norm_num) (by norm_num)]
      norm_num
    · rw [ceilLog10_eq_of ((50 : ℚ) * 4) 3 (by norm_num) (by norm_num)]
      norm_num
  · apply (hiff 15).mpr
    refine ⟨⟨3/2, by norm_num [mantissaTicks], 1, ?_, ?_, by norm_num⟩,
      by norm_num, by norm_num⟩
    · rw [floorLog10_eq_of ((1 : ℚ)/4) (-1) (by norm_num) (by norm_num)]
      norm_num
    · rw [ceilLog10_eq_of ((50 : ℚ) * 4) 3 (by norm_num) (by norm_num)]
      norm_num
  · rw [List.all_eq_true]
    intro t ht
    obtain ⟨_, hb1, hb2⟩ := (hiff t).mp ht
    simp only [Bool.and_eq_true, decide_eq_true_eq]
    exact ⟨by linarith, by linarith⟩

/-- **C9.** The finite decade enumeration loses no ticks: membership in
`denseMinorTicks` is equivalent to the same condition quantified over all
integer decades `k`, because every candidate `m * 10^k` with `k` outside
`[floor(log10(ymin/4)), ceil(log10(ymax*4)))` already falls outside the
open interval `(ymin/4, ymax*4)`. -/
theorem c9_decade_enumeration_complete (ymin ymax : ℚ) (h0 : 0 < ymin)
    (h1 : ymin ≤ ymax) (hr : ymax / ymin ≤ 100) (t : ℚ) :
    t ∈ denseMinorTicks ymin ymax ↔
      ∃ k : ℤ, ∃ m ∈ mantissaTicks, t = m * 10 ^ k ∧
        ymin / 4 < t ∧ t < ymax * 4 := by
  rw [mem_denseMinorTicks]
  constructor
  · rintro ⟨⟨m, hm, k, _, _, rfl⟩, hb1, hb2⟩
    exact ⟨k, m, hm, rfl, hb1, hb2⟩
  · rintro ⟨k, m, hm, rfl, hb1, hb2⟩
    have hmB : (3/2 : ℚ) ≤ m ∧ m ≤ 9 := by
      simp only [mantissaTicks, List.mem_cons, List.not_mem_nil, or_false] at hm
      rcases hm with h | h | h | h | h | h | h | h | h <;> subst h <;> norm_num
    have hymax : 0 < ymax := lt_of_lt_of_le h0 h1
    refine ⟨⟨m, hm, k, ?_, ?_, rfl⟩, hb1, hb2⟩
    · -- the decade cannot be below the enumerated window
      by_contra hlt
      push_neg at hlt
      have hy4 : 0 < ymin / 4 := by positivity
      obtain ⟨hfl, _⟩ := floorLog10_spec (ymin / 4) hy4
      have hzp : (10 : ℚ) ^ k ≤ 10 ^ (floorLog10 (ymin / 4) - 1) :=
        zpow_le_zpow_right₀ (by norm_num) (by omega)
      have h10 : (10 : ℚ) ^ (floorLog10 (ymin / 4) - 1) * 10
          = 10 ^ floorLog10 (ymin / 4) := by
        rw [← zpow_add_one₀ (by norm_num : (10 : ℚ) ≠ 0)]
        congr 1
        ring
      have hposk : (0 : ℚ) < 10 ^ k := zpow_pos (by norm_num) _
      have hpos : (0 : ℚ) < 10 ^ (floorLog10 (ymin / 4) - 1) :=
        zpow_pos (by norm_num) _
      have step1 : m * (10 : ℚ) ^ k ≤ 9 * 10 ^ (floorLog10 (ymin / 4) - 1) :=
        mul_le_mul hmB.2 hzp hposk.le (by norm_num)
      linarith
    · -- the decade cannot be at or above the enumerated window's end
      by_contra hge
      push_neg at hge
      have hy4 : 0 < ymax * 4 := by positivity
      obtain ⟨_, hcu⟩ := ceilLog10_spec (ymax * 4) hy4
      have hzp : (10 : ℚ) ^ ceilLog10 (ymax * 4) ≤ 10 ^ k :=
        zpow_le_zpow_right₀ (by norm_num) hge
      have hposE : (0 : ℚ) < 10 ^ ceilLog10 (ymax * 4) :=
        zpow_pos (by norm_num) _
      have step1 : (3/2) * (10 : ℚ) ^ ceilLog10 (ymax * 4) ≤ m * 10 ^ k :=
        mul_le_mul hmB.1 hzp hposE.le (le_trans (by norm_num) hmB.1)
      linarith

/-- **C9 witness.** On the range `[1, 50]`, the tick 15 (mantissa 1.5 at
decade 1) is produced by the enumeration. -/
theorem c9_decade_enumeration_complete_witness :
    (15 : ℚ) ∈ denseMinorTicks 1 50 := by
  apply (c9_decade_enumeration_complete 1 50 (by norm_num) (by norm_num)
    (by norm_num) 15).mpr
  exact ⟨1, 3/2, by norm_num [mantissaTicks], by norm_num, by norm_num, by norm_num⟩
